import Mathlib

/-!
Verification of the ftools reactive time-series engine core against its
natural-language specification.

The development shallowly embeds the decisive functions of the repository:
timestamp/index conversion (mistra/core/timelapses.py), dependency
coalescing of indicator refresh windows (mistra/core/indicators/__init__.py),
the chunked slicing iterator (support.py), the digest fold
(package/digests.py), source interpolation and push (package/sources.py and
sources.py), link/unlink (package/sources.py), and indicator disposal
(mistra/core/indicators/__init__.py).

Machine integers are modelled as Int/Nat (they do not overflow in the
source, which uses Python integers); the float interpolation arithmetic is
modelled by its exact rational value as an integer fraction with explicit
truncation toward zero; fallible code returns Except or pairs an error
option with the state.
-/

/-! ## Timelapse (mistra/core/timelapses.py)

Timestamps are modelled as integer seconds. The source computes
stamp_for(index) = timestamp + timedelta(seconds = index * int(interval)) and
index_for(stamp) = int((stamp - timestamp).total_seconds()) // int(interval).
On integer-second datetimes, total_seconds and int() are exact, and the
Python floor division // is Int.fdiv. -/

/-- Embedding of Timelapse.stamp_for: timestamp + index * interval, in
seconds (mistra/core/timelapses.py line 27). -/
def stamp_for (timestamp interval : ℤ) (index : ℕ) : ℤ :=
  timestamp + index * interval

/-- Embedding of Timelapse.index_for: floor division of the delta in seconds
by the interval (mistra/core/timelapses.py line 30). -/
def index_for (timestamp interval stamp : ℤ) : ℤ :=
  Int.fdiv (stamp - timestamp) interval

/-! ## Indicator refresh coalescing (mistra/core/indicators/__init__.py)

The indicator keeps, per upstream dependency, the maximum start and end
indices reported so far. Dependencies are modelled as a finite list of
dictionary keys; the two dictionaries are functions from keys to Nat. The
Python min over the (nonempty) dict values is modelled by pyMin. -/

/-- Minimum of a list of naturals, as the Python builtin min: the head is
the seed, a ValueError on the empty list is modelled by returning 0 (the
indicator constructor guarantees at least one dependency, so the empty case
is unreachable). -/
def pyMin : List ℕ → ℕ
  | [] => 0
  | x :: xs => xs.foldl min x

/-- State of Indicator._max_requested_start and _max_requested_end: per-key
maxima of reported refresh windows. -/
structure CoalesceState where
  max_requested_start : ℕ → ℕ
  max_requested_end : ℕ → ℕ

/-- Embedding of Indicator._on_dependency_update
(mistra/core/indicators/__init__.py lines 111-139): update the per-dependency
maxima, take the minimum across dependencies, clamp by the currently
reported window, call _update once and re-broadcast once. The returned list
records the (start, end) arguments of the single _update call. -/
def on_dependency_update (deps : List ℕ) (st : CoalesceState)
    (dependency start_ end_ : ℕ) : CoalesceState × List (ℕ × ℕ) :=
  let newEnd := Function.update st.max_requested_end dependency
    (max end_ (st.max_requested_end dependency))
  let minimum_requested_end := pyMin (deps.map newEnd)
  let current_end := min minimum_requested_end end_
  let newStart := Function.update st.max_requested_start dependency
    (max start_ (st.max_requested_start dependency))
  let minimum_requested_start := pyMin (deps.map newStart)
  let current_start := min minimum_requested_start start_
  (⟨newStart, newEnd⟩, [(current_start, current_end)])

/-- pyMin of a nonempty list is a lower bound of its members. -/
theorem pyMin_le {l : List ℕ} {x : ℕ} (hx : x ∈ l) : pyMin l ≤ x := by
  match l with
  | [] => cases hx
  | a :: xs =>
    have key : ∀ (ys : List ℕ) (seed : ℕ), ys.foldl min seed ≤ seed ∧
        ∀ y ∈ ys, ys.foldl min seed ≤ y := by
      intro ys
      induction ys with
      | nil => intro seed; exact ⟨le_refl _, by intro y hy; cases hy⟩
      | cons b bs ih =>
        intro seed
        obtain ⟨h1, h2⟩ := ih (min seed b)
        refine ⟨le_trans h1 (min_le_left _ _), ?_⟩
        intro y hy
        rcases List.mem_cons.mp hy with rfl | hy
        · exact le_trans h1 (min_le_right _ _)
        · exact h2 y hy
    rcases List.mem_cons.mp hx with rfl | hx
    · exact (key xs x).1
    · exact (key xs a).2 x hx

/-- Claim C1: each call to _on_dependency_update first raises the stored
per-dependency maxima to cover the reported window, then calls _update
exactly once with end = min(min over dependencies of max_requested_end, end)
and start = min(min over dependencies of max_requested_start, start); in
particular the end passed to _update never exceeds the minimum-seen endpoint
across dependencies. -/
theorem c1_indicator_coalescing (deps : List ℕ) (st : CoalesceState)
    (d s e : ℕ) (hd : d ∈ deps) :
    (on_dependency_update deps st d s e).1.max_requested_end
        = Function.update st.max_requested_end d (max (st.max_requested_end d) e)
      ∧ (on_dependency_update deps st d s e).1.max_requested_start
        = Function.update st.max_requested_start d (max (st.max_requested_start d) s)
      ∧ (on_dependency_update deps st d s e).2
        = [(min (pyMin (deps.map
              (Function.update st.max_requested_start d (max (st.max_requested_start d) s)))) s,
            min (pyMin (deps.map
              (Function.update st.max_requested_end d (max (st.max_requested_end d) e)))) e)]
      ∧ ∀ p ∈ (on_dependency_update deps st d s e).2, ∀ d' ∈ deps,
          p.2 ≤ (on_dependency_update deps st d s e).1.max_requested_end d' := by
  refine ⟨by simp [on_dependency_update, Nat.max_comm], by simp [on_dependency_update, Nat.max_comm],
    by simp [on_dependency_update, Nat.max_comm], ?_⟩
  intro p hp d' hd'
  simp only [on_dependency_update, List.mem_singleton] at hp
  subst hp
  simp only
  exact le_trans (min_le_left _ _)
    (pyMin_le (List.mem_map_of_mem (Function.update st.max_requested_end d
      (max e (st.max_requested_end d))) hd'))

/-- Claim C1 witness: a single dependency 0 with zeroed maxima receiving the
window (2, 5). -/
theorem c1_indicator_coalescing_witness :
    (0 : ℕ) ∈ [0]
      ∧ ((on_dependency_update [0] ⟨fun _ => 0, fun _ => 0⟩ 0 2 5).1.max_requested_end
          = Function.update (fun _ => 0) 0 (max ((fun (_ : ℕ) => (0 : ℕ)) 0) 5)
        ∧ (on_dependency_update [0] ⟨fun _ => 0, fun _ => 0⟩ 0 2 5).1.max_requested_start
          = Function.update (fun _ => 0) 0 (max ((fun (_ : ℕ) => (0 : ℕ)) 0) 2)
        ∧ (on_dependency_update [0] ⟨fun _ => 0, fun _ => 0⟩ 0 2 5).2
          = [(min (pyMin ([0].map
                (Function.update (fun _ => 0) 0 (max ((fun (_ : ℕ) => (0 : ℕ)) 0) 2)))) 2,
              min (pyMin ([0].map
                (Function.update (fun _ => 0) 0 (max ((fun (_ : ℕ) => (0 : ℕ)) 0) 5)))) 5)]
        ∧ ∀ p ∈ (on_dependency_update [0] ⟨fun _ => 0, fun _ => 0⟩ 0 2 5).2, ∀ d' ∈ [0],
            p.2 ≤ (on_dependency_update [0] ⟨fun _ => 0, fun _ => 0⟩ 0 2 5).1.max_requested_end d') :=
  ⟨List.mem_singleton.mpr rfl,
    c1_indicator_coalescing [0] ⟨fun _ => 0, fun _ => 0⟩ 0 2 5 (List.mem_singleton.mpr rfl)⟩

/-- Claim C9: for a positive interval, index_for inverts stamp_for on every
index i, because the delta is exactly i * interval seconds. -/
theorem c9_timelapse_roundtrip (timestamp interval : ℤ) (i : ℕ)
    (h : 0 < interval) :
    index_for timestamp interval (stamp_for timestamp interval i) = i := by
  unfold index_for stamp_for
  rw [add_sub_cancel_left]
  exact Int.mul_fdiv_cancel _ (ne_of_gt h)

/-- Claim C9 witness: origin 100, interval 3600 (one hour), index 7. -/
theorem c9_timelapse_roundtrip_witness :
    (0 : ℤ) < 3600 ∧ index_for 100 3600 (stamp_for 100 3600 7) = 7 :=
  ⟨by decide, c9_timelapse_roundtrip 100 3600 7 (by decide)⟩

/-! ## Chunked slicing (support.py)

chunked_slicing yields, per touched chunk, a tuple of data indices
(lower, upper), the chunk index, and chunk-local indices (lower, upper).
The generator is embedded as the list of its yields; the while loop becomes
the recursive helper chunked_slicing_rest, entered after the first
iteration has been peeled off (the first iteration is the only one with a
nonzero chunk-local lower bound). -/

/-- A yielded tuple: ((data lower, data upper), chunk index, (chunk-local
lower, chunk-local upper)). -/
abbrev SliceEntry : Type := (ℕ × ℕ) × ℕ × (ℕ × ℕ)

/-- Embedding of the while loop of chunked_slicing (support.py lines 43-75)
from its second iteration on: every iteration before the stop chunk yields
the full chunk; at the stop chunk, the final partial chunk is yielded unless
its upper bound is 0, in which case nothing more is yielded. -/
def chunked_slicing_rest (chunk_size stop_chunk chunk_stop_index current_chunk data_index : ℕ) :
    List SliceEntry :=
  if h : stop_chunk ≤ current_chunk then
    if current_chunk = stop_chunk ∧ chunk_stop_index ≠ 0 then
      [((data_index, data_index + chunk_stop_index), current_chunk, (0, chunk_stop_index))]
    else []
  else
    ((data_index, data_index + chunk_size), current_chunk, (0, chunk_size)) ::
      chunked_slicing_rest chunk_size stop_chunk chunk_stop_index (current_chunk + 1)
        (data_index + chunk_size)
termination_by stop_chunk - current_chunk
decreasing_by omega

/-- Embedding of chunked_slicing (support.py lines 1-76). The single-chunk
case yields one tuple; otherwise the first iteration (chunk-local lower
bound slice_start % chunk_size, upper bound chunk_size) is followed by the
loop over the remaining chunks. -/
def chunked_slicing (slice_start slice_stop chunk_size : ℕ) : List SliceEntry :=
  let start_chunk := slice_start / chunk_size
  let stop_chunk := slice_stop / chunk_size
  if start_chunk = stop_chunk then
    [((0, slice_stop - slice_start), start_chunk,
      (slice_start % chunk_size, slice_stop % chunk_size))]
  else
    ((0, chunk_size - slice_start % chunk_size), start_chunk,
      (slice_start % chunk_size, chunk_size)) ::
      chunked_slicing_rest chunk_size stop_chunk (slice_stop % chunk_size)
        (start_chunk + 1) (chunk_size - slice_start % chunk_size)

/-- One-step unfolding of the loop strictly before the stop chunk. -/
theorem chunked_slicing_rest_step_lt {cs tc csi c d : ℕ} (h : c < tc) :
    chunked_slicing_rest cs tc csi c d =
      ((d, d + cs), c, (0, cs)) :: chunked_slicing_rest cs tc csi (c + 1) (d + cs) := by
  rw [chunked_slicing_rest, dif_neg (by omega)]

/-- One-step unfolding of the loop at the stop chunk. -/
theorem chunked_slicing_rest_step_eq {cs tc csi d : ℕ} :
    chunked_slicing_rest cs tc csi tc d =
      if csi = 0 then [] else [((d, d + csi), tc, (0, csi))] := by
  rw [chunked_slicing_rest, dif_pos (le_refl tc)]
  by_cases h : csi = 0
  · simp [h]
  · simp [h]

/-- The head of the loop output starts its data range at the running data
index. -/
theorem chunked_slicing_rest_head {cs tc csi c d : ℕ} (hc : c ≤ tc) :
    ∀ e, (chunked_slicing_rest cs tc csi c d).head? = some e → e.1.1 = d := by
  intro e he
  rcases Nat.lt_or_ge c tc with h | h
  · rw [chunked_slicing_rest_step_lt h] at he
    simp only [List.head?_cons, Option.some.injEq] at he
    subst he; rfl
  · have hctc : c = tc := le_antisymm hc h
    subst hctc
    rw [chunked_slicing_rest_step_eq] at he
    by_cases h0 : csi = 0
    · simp [h0] at he
    · simp only [if_neg h0, List.head?_cons, Option.some.injEq] at he
      subst he; rfl

/-- Data ranges yielded by the loop are consecutive. -/
theorem chunked_slicing_rest_chain (cs tc csi : ℕ) :
    ∀ k c d, c + k = tc →
      List.Chain' (fun a b : SliceEntry => a.1.2 = b.1.1)
        (chunked_slicing_rest cs tc csi c d) := by
  intro k
  induction k with
  | zero =>
    intro c d hc
    have hctc : c = tc := by omega
    subst hctc
    rw [chunked_slicing_rest_step_eq]
    by_cases h0 : csi = 0 <;> simp [h0]
  | succ k ih =>
    intro c d hc
    rw [chunked_slicing_rest_step_lt (by omega)]
    rw [List.chain'_cons']
    constructor
    · intro y hy
      have := @chunked_slicing_rest_head cs tc csi (c + 1) (d + cs) (by omega) y hy
      simpa using this.symm
    · exact ih (c + 1) (d + cs) (by omega)

/-- Last-entry characterization of the loop output: either the loop yields
nothing (stop chunk reached with a zero final bound), or the last yielded
entry closes the data range at data_index + k * chunk_size +
chunk_stop_index and is either the partial stop chunk or, when the final
bound is zero, the full chunk just before the stop chunk. -/
theorem chunked_slicing_rest_getLast (cs tc csi : ℕ) :
    ∀ k c d, c + k = tc →
      (csi = 0 ∧ c = tc ∧ chunked_slicing_rest cs tc csi c d = [])
      ∨ ∃ e, (chunked_slicing_rest cs tc csi c d).getLast? = some e
          ∧ e.1.2 = d + k * cs + csi
          ∧ ((csi ≠ 0 ∧ e.2.2.2 = csi ∧ e.2.1 = tc)
            ∨ (csi = 0 ∧ e.2.2.2 = cs ∧ e.2.1 + 1 = tc)) := by
  intro k
  induction k with
  | zero =>
    intro c d hc
    have hctc : c = tc := by omega
    subst hctc
    rw [chunked_slicing_rest_step_eq]
    by_cases h0 : csi = 0
    · exact Or.inl ⟨h0, rfl, by simp [h0]⟩
    · refine Or.inr ⟨((d, d + csi), c, (0, csi)), by simp [h0], by simp, Or.inl ⟨h0, rfl, rfl⟩⟩
  | succ k ih =>
    intro c d hc
    rw [chunked_slicing_rest_step_lt (show c < tc by omega)]
    rcases ih (c + 1) (d + cs) (by omega) with ⟨h0, hce, hnil⟩ | ⟨e, hlast, hdh, hor⟩
    · have hk : k = 0 := by omega
      subst hk
      exact Or.inr ⟨((d, d + cs), c, (0, cs)), by simp [hnil], by simp [h0],
        Or.inr ⟨h0, rfl, hce⟩⟩
    · have hne : chunked_slicing_rest cs tc csi (c + 1) (d + cs) ≠ [] := by
        intro h; rw [h] at hlast; simp at hlast
      refine Or.inr ⟨e, ?_, ?_, hor⟩
      · rw [show (((d, d + cs), c, (0, cs)) :: chunked_slicing_rest cs tc csi (c + 1) (d + cs))
            = [((d, d + cs), c, (0, cs))] ++ chunked_slicing_rest cs tc csi (c + 1) (d + cs)
            from rfl]
        rw [List.getLast?_append_of_ne_nil _ hne]
        exact hlast
      · rw [hdh, Nat.succ_mul]; omega

/-- Every entry yielded by the loop has chunk-local lower bound 0, is
aligned (chunk index times chunk size plus local lower bound equals the
overall start plus the data lower bound, given the alignment of the running
state), has equal data and chunk-local lengths, and is nonempty. -/
theorem chunked_slicing_rest_mem (cs tc csi : ℕ) (hcs : 0 < cs) (ss : ℕ) :
    ∀ k c d, c + k = tc → c * cs = ss + d →
      ∀ e ∈ chunked_slicing_rest cs tc csi c d,
        e.2.2.1 = 0 ∧ e.2.1 * cs + e.2.2.1 = ss + e.1.1
          ∧ e.1.2 = e.1.1 + (e.2.2.2 - e.2.2.1) ∧ e.2.2.1 ≤ e.2.2.2 ∧ e.1.1 < e.1.2 := by
  intro k
  induction k with
  | zero =>
    intro c d hc halign e he
    have hctc : c = tc := by omega
    subst hctc
    rw [chunked_slicing_rest_step_eq] at he
    by_cases h0 : csi = 0
    · simp [h0] at he
    · simp only [if_neg h0, List.mem_singleton] at he
      subst he
      refine ⟨rfl, by simpa using halign, by simp, by simp, by simp; omega⟩
  | succ k ih =>
    intro c d hc halign e he
    rw [chunked_slicing_rest_step_lt (show c < tc by omega)] at he
    rcases List.mem_cons.mp he with rfl | he
    · exact ⟨rfl, by simpa using halign, by simp, by simp, by simp; omega⟩
    · refine ih (c + 1) (d + cs) (by omega) ?_ e he
      rw [Nat.succ_mul, halign]; omega

/-- Every entry of the loop output except the last spans the full chunk. -/
theorem chunked_slicing_rest_dropLast (cs tc csi : ℕ) :
    ∀ k c d, c + k = tc →
      ∀ e ∈ (chunked_slicing_rest cs tc csi c d).dropLast, e.2.2.2 = cs := by
  intro k
  induction k with
  | zero =>
    intro c d hc e he
    have hctc : c = tc := by omega
    subst hctc
    rw [chunked_slicing_rest_step_eq] at he
    by_cases h0 : csi = 0 <;> simp [h0] at he
  | succ k ih =>
    intro c d hc e he
    rw [chunked_slicing_rest_step_lt (show c < tc by omega)] at he
    by_cases hnil : chunked_slicing_rest cs tc csi (c + 1) (d + cs) = []
    · rw [hnil] at he; simp at he
    · rw [List.dropLast_cons_of_ne_nil hnil] at he
      rcases List.mem_cons.mp he with rfl | he
      · rfl
      · exact ih (c + 1) (d + cs) (by omega) e he

/-- Claim C3 (amended): for 0 <= slice_start <= slice_stop and
chunk_size >= 1, the yielded tuples enumerate the data range in order
(consecutive data ranges from 0 to slice_stop - slice_start), each entry is
aligned (chunk * chunk_size + chunk_lower = slice_start + data_lower) with
equal data and chunk-local lengths, the first chunk-local lower bound is
slice_start % chunk_size, non-first entries have lower bound 0, non-last
entries span to chunk_size, the last entry ends at slice_stop % chunk_size
unless that is 0 (then iteration stopped one chunk earlier), and - provided
slice_start < slice_stop - no yielded iteration has zero length. -/
theorem c3_chunked_slicing (ss sp cs : ℕ) (hle : ss ≤ sp) (hcs : 1 ≤ cs) :
    chunked_slicing ss sp cs ≠ []
    ∧ (∀ e, (chunked_slicing ss sp cs).head? = some e → e.1.1 = 0 ∧ e.2.2.1 = ss % cs)
    ∧ List.Chain' (fun a b : SliceEntry => a.1.2 = b.1.1) (chunked_slicing ss sp cs)
    ∧ (∀ e, (chunked_slicing ss sp cs).getLast? = some e → e.1.2 = sp - ss)
    ∧ (∀ e ∈ chunked_slicing ss sp cs, e.2.1 * cs + e.2.2.1 = ss + e.1.1
        ∧ e.1.2 = e.1.1 + (e.2.2.2 - e.2.2.1) ∧ e.2.2.1 ≤ e.2.2.2)
    ∧ (∀ e ∈ (chunked_slicing ss sp cs).tail, e.2.2.1 = 0)
    ∧ (∀ e ∈ (chunked_slicing ss sp cs).dropLast, e.2.2.2 = cs)
    ∧ (∀ e, (chunked_slicing ss sp cs).getLast? = some e →
        (sp % cs ≠ 0 → e.2.2.2 = sp % cs ∧ e.2.1 = sp / cs)
        ∧ (sp % cs = 0 → ss < sp → e.2.2.2 = cs ∧ e.2.1 + 1 = sp / cs))
    ∧ (ss < sp → ∀ e ∈ chunked_slicing ss sp cs, e.1.1 < e.1.2) := by
  have hmodss : ss % cs < cs := Nat.mod_lt _ (by omega)
  have e1 : ss / cs * cs + ss % cs = ss := Nat.div_add_mod' ss cs
  have e2 : sp / cs * cs + sp % cs = sp := Nat.div_add_mod' sp cs
  by_cases hq : ss / cs = sp / cs
  · have hL : chunked_slicing ss sp cs
        = [((0, sp - ss), ss / cs, (ss % cs, sp % cs))] := by
      simp only [chunked_slicing]
      rw [if_pos hq]
    rw [← hq] at e2
    rw [hL]
    refine ⟨by simp, ?_, by simp, ?_, ?_, by simp, by simp, ?_, ?_⟩
    · intro e he
      simp only [List.head?_cons, Option.some.injEq] at he
      subst he
      exact ⟨rfl, rfl⟩
    · intro e he
      simp only [List.getLast?_singleton, Option.some.injEq] at he
      subst he
      rfl
    · intro e he
      simp only [List.mem_singleton] at he
      subst he
      refine ⟨by simpa using e1, by simp; omega, by simp; omega⟩
    · intro e he
      simp only [List.getLast?_singleton, Option.some.injEq] at he
      subst he
      refine ⟨fun _ => ⟨rfl, hq⟩, fun h0 hlt => absurd hlt (by omega)⟩
    · intro hlt e he
      simp only [List.mem_singleton] at he
      subst he
      simp only
      omega
  · have hqlt : ss / cs < sp / cs :=
      lt_of_le_of_ne (Nat.div_le_div_right hle) hq
    obtain ⟨k₀, hck⟩ : ∃ k, (ss / cs + 1) + k = sp / cs := ⟨sp / cs - (ss / cs + 1), by omega⟩
    have hL : chunked_slicing ss sp cs
        = ((0, cs - ss % cs), ss / cs, (ss % cs, cs)) ::
          chunked_slicing_rest cs (sp / cs) (sp % cs) (ss / cs + 1) (cs - ss % cs) := by
      simp only [chunked_slicing]
      rw [if_neg hq]
    have halign : (ss / cs + 1) * cs = ss + (cs - ss % cs) := by
      rw [Nat.succ_mul]; omega
    have hsp : (cs - ss % cs) + k₀ * cs + sp % cs = sp - ss := by
      rw [← hck, add_mul, Nat.succ_mul] at e2
      omega
    have hchain := chunked_slicing_rest_chain cs (sp / cs) (sp % cs)
      k₀ (ss / cs + 1) (cs - ss % cs) hck
    have hmem := chunked_slicing_rest_mem cs (sp / cs) (sp % cs) (by omega) ss
      k₀ (ss / cs + 1) (cs - ss % cs) hck halign
    have hlast := chunked_slicing_rest_getLast cs (sp / cs) (sp % cs)
      k₀ (ss / cs + 1) (cs - ss % cs) hck
    have hdrop := chunked_slicing_rest_dropLast cs (sp / cs) (sp % cs)
      k₀ (ss / cs + 1) (cs - ss % cs) hck
    rw [hL]
    refine ⟨by simp, ?_, ?_, ?_, ?_, ?_, ?_, ?_, ?_⟩
    · intro e he
      simp only [List.head?_cons, Option.some.injEq] at he
      subst he
      exact ⟨rfl, rfl⟩
    · refine List.chain'_cons'.mpr ⟨?_, hchain⟩
      intro y hy
      exact (chunked_slicing_rest_head (by omega) y hy).symm
    · intro e he
      rcases hlast with ⟨h0, hce, hnil⟩ | ⟨e', hl, hdh, hor⟩
      · rw [hnil] at he
        simp only [List.getLast?_singleton, Option.some.injEq] at he
        subst he
        have hk : k₀ = 0 := by omega
        subst hk
        simp only [Nat.zero_mul, Nat.add_zero] at hsp
        simp only
        omega
      · have hne : chunked_slicing_rest cs (sp / cs) (sp % cs) (ss / cs + 1) (cs - ss % cs)
            ≠ [] := by
          intro h; rw [h] at hl; simp at hl
        rw [show (((0, cs - ss % cs), ss / cs, (ss % cs, cs)) ::
              chunked_slicing_rest cs (sp / cs) (sp % cs) (ss / cs + 1) (cs - ss % cs))
            = [((0, cs - ss % cs), ss / cs, (ss % cs, cs))] ++
              chunked_slicing_rest cs (sp / cs) (sp % cs) (ss / cs + 1) (cs - ss % cs)
            from rfl, List.getLast?_append_of_ne_nil _ hne, hl] at he
        obtain rfl := Option.some.inj he
        rw [hdh]
        exact hsp
    · intro e he
      rcases List.mem_cons.mp he with rfl | he
      · exact ⟨by simpa using e1, by simp, by simp; omega⟩
      · obtain ⟨hlo, hal, hlen, hlehi, _⟩ := hmem e he
        exact ⟨hal, hlen, hlehi⟩
    · intro e he
      exact (hmem e (by simpa using he)).1
    · by_cases hnil : chunked_slicing_rest cs (sp / cs) (sp % cs) (ss / cs + 1) (cs - ss % cs)
          = []
      · rw [hnil]
        simp
      · rw [List.dropLast_cons_of_ne_nil hnil]
        intro e he
        rcases List.mem_cons.mp he with rfl | he
        · rfl
        · exact hdrop e he
    · intro e he
      rcases hlast with ⟨h0, hce, hnil⟩ | ⟨e', hl, hdh, hor⟩
      · rw [hnil] at he
        simp only [List.getLast?_singleton, Option.some.injEq] at he
        subst he
        exact ⟨fun hne => absurd h0 hne, fun _ _ => ⟨rfl, hce⟩⟩
      · have hne : chunked_slicing_rest cs (sp / cs) (sp % cs) (ss / cs + 1) (cs - ss % cs)
            ≠ [] := by
          intro h; rw [h] at hl; simp at hl
        rw [show (((0, cs - ss % cs), ss / cs, (ss % cs, cs)) ::
              chunked_slicing_rest cs (sp / cs) (sp % cs) (ss / cs + 1) (cs - ss % cs))
            = [((0, cs - ss % cs), ss / cs, (ss % cs, cs))] ++
              chunked_slicing_rest cs (sp / cs) (sp % cs) (ss / cs + 1) (cs - ss % cs)
            from rfl, List.getLast?_append_of_ne_nil _ hne, hl] at he
        obtain rfl := Option.some.inj he
        rcases hor with ⟨hne0, hub, hch⟩ | ⟨h0, hub, hch⟩
        · exact ⟨fun _ => ⟨hub, hch⟩, fun h0 _ => absurd h0 hne0⟩
        · exact ⟨fun hne2 => absurd h0 hne2, fun _ _ => ⟨hub, hch⟩⟩
    · intro hlt e he
      rcases List.mem_cons.mp he with rfl | he
      · simp only
        omega
      · exact (hmem e he).2.2.2.2

/-- Claim C3 counterexample: with slice_start = slice_stop = 0 and
chunk_size = 60 (which satisfy 0 <= slice_start <= slice_stop and
chunk_size >= 1), the generator yields exactly one tuple, and that yielded
iteration has zero length, contradicting the claim that no yielded
iteration has zero length. -/
theorem c3_chunked_slicing_counterexample :
    (0 : ℕ) ≤ 0 ∧ (1 : ℕ) ≤ 60
      ∧ chunked_slicing 0 0 60 = [((0, 0), 0, (0, 0))]
      ∧ ∃ e ∈ chunked_slicing 0 0 60, ¬ e.1.1 < e.1.2 := by
  refine ⟨by decide, by decide, ?_, ?_⟩
  · simp [chunked_slicing]
  · refine ⟨((0, 0), 0, (0, 0)), ?_, by decide⟩
    simp [chunked_slicing]

/-- Claim C3 witness: slice_start 5, slice_stop 125, chunk_size 60 (three
chunks: a partial first chunk, a full middle chunk, a partial last chunk). -/
theorem c3_chunked_slicing_witness :
    (5 : ℕ) ≤ 125 ∧ (1 : ℕ) ≤ 60
      ∧ (chunked_slicing 5 125 60 ≠ []
        ∧ (∀ e, (chunked_slicing 5 125 60).head? = some e → e.1.1 = 0 ∧ e.2.2.1 = 5 % 60)
        ∧ List.Chain' (fun a b : SliceEntry => a.1.2 = b.1.1) (chunked_slicing 5 125 60)
        ∧ (∀ e, (chunked_slicing 5 125 60).getLast? = some e → e.1.2 = 125 - 5)
        ∧ (∀ e ∈ chunked_slicing 5 125 60, e.2.1 * 60 + e.2.2.1 = 5 + e.1.1
            ∧ e.1.2 = e.1.1 + (e.2.2.2 - e.2.2.1) ∧ e.2.2.1 ≤ e.2.2.2)
        ∧ (∀ e ∈ (chunked_slicing 5 125 60).tail, e.2.2.1 = 0)
        ∧ (∀ e ∈ (chunked_slicing 5 125 60).dropLast, e.2.2.2 = 60)
        ∧ (∀ e, (chunked_slicing 5 125 60).getLast? = some e →
            (125 % 60 ≠ 0 → e.2.2.2 = 125 % 60 ∧ e.2.1 = 125 / 60)
            ∧ (125 % 60 = 0 → 5 < 125 → e.2.2.2 = 60 ∧ e.2.1 + 1 = 125 / 60))
        ∧ (5 < 125 → ∀ e ∈ chunked_slicing 5 125 60, e.1.1 < e.1.2)) :=
  ⟨by decide, by decide, c3_chunked_slicing 5 125 60 (by decide) (by decide)⟩

/-! ## Digest fold (package/digests.py) -/

/-- Modelled from the spec: pricing.Candle is absent from src (only its
callers appear there). Four integers standing for the prices at bin start,
bin end, and the running extremes. -/
structure Candle where
  start : ℤ
  end_ : ℤ
  min : ℤ
  max : ℤ
deriving DecidableEq

/-- Modelled from the spec: Candle.merge keeps the first-seen start, the
latest end, and the running extremes. -/
def Candle.merge (a b : Candle) : Candle :=
  ⟨a.start, b.end_, Min.min a.min b.min, Max.max a.max b.max⟩

/-- A row of a source backing a digest: a standardized price (an integer) or
a candle. -/
inductive SourceElem where
  | price : ℤ → SourceElem
  | candle : Candle → SourceElem
deriving DecidableEq

/-- Promotion of a source element to a candle: a scalar price becomes the
constant candle with all four components equal. -/
def SourceElem.toCandle : SourceElem → Candle
  | .price v => ⟨v, v, v, v⟩
  | .candle c => c

/-- The merge-or-initialize decision of the fold loop body in
Digest._on_refresh (package/digests.py lines 95-103): an empty bin is
initialized from the source sample (a scalar price promoted to a constant
candle), a populated bin is merged with it. -/
def digest_bin_merge (source : ℕ → SourceElem) (oc : Option Candle) (i : ℕ) :
    Option Candle :=
  match oc, source i with
  | none, .candle c => some c
  | none, .price v => some ⟨v, v, v, v⟩
  | some c, se => some (c.merge se.toCandle)

/-- One iteration of the fold loop of Digest._on_refresh: the bin at
source_index / relative_bin_size is read, merged, and stored back. -/
def digest_fold_step (source : ℕ → SourceElem) (relative_bin_size : ℕ)
    (bins : ℕ → Option Candle) (source_index : ℕ) : ℕ → Option Candle :=
  Function.update bins (source_index / relative_bin_size)
    (digest_bin_merge source (bins (source_index / relative_bin_size)) source_index)

/-- State of a digest: its candle bins (none marks an untouched bin, the
fill sentinel of the backing growing array) and _last_source_index, which
starts at -1. -/
structure DigestState where
  bins : ℕ → Option Candle
  last_source_index : ℤ

/-- Embedding of Digest._on_refresh (package/digests.py lines 79-106): fold
every source index in [start, end) into its bin in order, update
_last_source_index to max(previous, end - 1), and fire
on_refresh_linked_sources once; the returned list records the trigger
arguments (bin_start, bin_end). -/
def digest_on_refresh (source : ℕ → SourceElem) (relative_bin_size : ℕ)
    (st : DigestState) (start_ end_ : ℕ) : DigestState × List (ℕ × ℕ) :=
  let min_index := start_ / relative_bin_size
  let max_index := (end_ + relative_bin_size - 1) / relative_bin_size
  let bins2 := (List.range' start_ (end_ - start_)).foldl
    (digest_fold_step source relative_bin_size) st.bins
  (⟨bins2, max st.last_source_index ((end_ : ℤ) - 1)⟩, [(min_index, max_index)])

/-- Folding digest_fold_step over a list of source indices touches each bin
through exactly the source indices that map to it, in order. -/
theorem digest_fold_bins (source : ℕ → SourceElem) (r : ℕ) :
    ∀ (l : List ℕ) (bins : ℕ → Option Candle) (b : ℕ),
      (l.foldl (digest_fold_step source r) bins) b
        = (l.filter (fun i => i / r = b)).foldl (digest_bin_merge source) (bins b) := by
  intro l
  induction l with
  | nil => intro bins b; rfl
  | cons a t ih =>
    intro bins b
    simp only [List.foldl_cons, List.filter_cons]
    by_cases hab : a / r = b
    · rw [if_pos (by simp [hab])]
      simp only [List.foldl_cons]
      rw [ih]
      congr 1
      simp [digest_fold_step, Function.update_apply, hab]
    · rw [if_neg (by simp [hab])]
      rw [ih]
      congr 1
      simp only [digest_fold_step, Function.update_apply]
      rw [if_neg (Ne.symm hab)]

/-- Claim C4: a digest refresh over the source window [start, end) fires
on_refresh_linked_sources exactly once with (start / r, (end + r - 1) / r),
sets _last_source_index to max(previous, end - 1), and merges every source
sample i of the window into bin i / r exactly once and in order, an empty
bin being initialized from its first sample with scalar prices promoted to
constant candles. -/
theorem c4_digest_on_refresh (source : ℕ → SourceElem) (r : ℕ)
    (st : DigestState) (start_ end_ : ℕ) (hr : 1 ≤ r) (hlt : start_ < end_) :
    (digest_on_refresh source r st start_ end_).2
        = [(start_ / r, (end_ + r - 1) / r)]
      ∧ (digest_on_refresh source r st start_ end_).1.last_source_index
        = max st.last_source_index ((end_ : ℤ) - 1)
      ∧ ∀ b, (digest_on_refresh source r st start_ end_).1.bins b
        = ((List.range' start_ (end_ - start_)).filter (fun i => i / r = b)).foldl
            (digest_bin_merge source) (st.bins b) := by
  refine ⟨rfl, rfl, ?_⟩
  intro b
  exact digest_fold_bins source r (List.range' start_ (end_ - start_)) st.bins b

/-- Claim C4 witness: relative bin size 2, window (1, 4) over the price
source i, on a fresh digest. -/
theorem c4_digest_on_refresh_witness :
    (1 : ℕ) ≤ 2 ∧ (1 : ℕ) < 4
      ∧ ((digest_on_refresh (fun i => SourceElem.price i) 2 ⟨fun _ => none, -1⟩ 1 4).2
          = [(1 / 2, (4 + 2 - 1) / 2)]
        ∧ (digest_on_refresh (fun i => SourceElem.price i) 2 ⟨fun _ => none, -1⟩ 1 4).1.last_source_index
          = max (-1 : ℤ) ((4 : ℤ) - 1)
        ∧ ∀ b, (digest_on_refresh (fun i => SourceElem.price i) 2 ⟨fun _ => none, -1⟩ 1 4).1.bins b
          = ((List.range' 1 (4 - 1)).filter (fun i => i / 2 = b)).foldl
              (digest_bin_merge (fun i => SourceElem.price i)) ((fun _ => none) b)) :=
  ⟨by decide, by decide,
    c4_digest_on_refresh (fun i => SourceElem.price i) 2 ⟨fun _ => none, -1⟩ 1 4
      (by decide) (by decide)⟩

/-! ## Source push with gap interpolation (sources.py, package/sources.py)

The price-typed source is embedded with the state discipline of
SourceFrame (sources.py): _initial, _last_index (-1 while empty), and the
row storage (none marks an unwritten slot). The mid-refactor
package/sources.py delegates the length to package/timelapses.py, whose
maintenance code never updates it; the file uses that length exactly where
SourceFrame uses _last_index, so _last_index is the coherent reading and
the one the interpolation scenario of the spec presumes. The interpolation
formula itself is taken from package/sources.py lines 85-90, whose explicit
int() conversion agrees with the numpy int-array store coercion performed
by sources.py line 119. -/

/-- Python error kinds raised by the embedded code. The uninitialized,
frameFull and disposed constructors are all RuntimeError in Python, with
distinct messages (interpolation without an initial value, the fixed-size
legacy frame overflowing, and reading a disposed indicator). -/
inductive PyErr where
  | attributeError
  | typeError
  | valueError
  | indexError
  | uninitialized
  | frameFull
  | disposed
deriving DecidableEq

/-- Sequential writes of a list of rows starting at an index, as the numpy
slice assignment data[index : index + n] = values. -/
def write_list (data : ℕ → Option ℤ) (index : ℕ) : List ℤ → (ℕ → Option ℤ)
  | [] => data
  | v :: vs => write_list (Function.update data index (some v)) (index + 1) vs

/-- Embedding of Source._interpolate for the integer branch
(package/sources.py lines 85-90): with distance = end - start + 1 and
delta = float(next - previous) / distance, slots start .. end - 1 receive
int(delta * (index + 1) + previous) for index = 0 .. distance - 2. The
value delta * (index + 1) + previous equals the exact rational
((next - previous) * (index + 1) + previous * distance) / distance, and
int() truncates it toward zero, which is Int.tdiv of that fraction; the
float evaluation yields the same integer for the magnitudes the repository
handles (it is exact for the concrete scenario inputs below). -/
def source_interpolate (previous_value : ℤ) (start_ end_ : ℕ) (next_value : ℤ)
    (data : ℕ → Option ℤ) : ℕ → Option ℤ :=
  let distance : ℤ := (end_ : ℤ) - (start_ : ℤ) + 1
  (List.range (end_ - start_)).foldl
    (fun d index => Function.update d (start_ + index)
      (some (((next_value - previous_value) * ((index : ℤ) + 1)
        + previous_value * distance).tdiv distance)))
    data

/-- State of a price source: _initial, _last_index (-1 while empty), and
the stored rows. -/
structure PriceSource where
  initial : Option ℤ
  last_index : ℤ
  data : ℕ → Option ℤ

/-- Embedding of SourceFrame._interpolate_and_put (sources.py lines
133-160; package/sources.py lines 104-132 is the same code with the length
field substituted for _last_index): take the left neighbour (the initial
value while empty), interpolate if the push leaves a gap - failing if the
frame is empty and no initial value was set - then write the pushed rows.
The failure precedes every write, so an error leaves the state untouched. -/
def source_interpolate_and_put (st : PriceSource) (push_index : ℕ)
    (push_data : List ℤ) : Except PyErr PriceSource :=
  let left_side : Option ℤ :=
    if st.last_index = -1 then st.initial else st.data st.last_index.toNat
  if (push_index : ℤ) - 1 > st.last_index then
    if st.last_index = -1 ∧ left_side = none then
      Except.error PyErr.uninitialized
    else
      match push_data.head? with
      | none => Except.error PyErr.indexError
      | some right_side =>
        let data2 := match left_side with
          | some prev =>
            source_interpolate prev (st.last_index + 1).toNat push_index right_side st.data
          | none => st.data
        Except.ok { st with data := write_list data2 push_index push_data }
  else
    Except.ok { st with data := write_list st.data push_index push_data }

/-- Embedding of SourceFrame.push (sources.py lines 162-201) for the price
dtype: default index _last_index + 1, reject reuse of an occupied index,
reject overflowing the fixed legacy capacity (86400 / interval rows), then
interpolate-and-put, advance _last_index and trigger the two refresh
events; the returned list records the trigger arguments (the shared end
index, once per event). An error return models a Python exception raised
before any state mutation. -/
def source_push (capacity : ℕ) (st : PriceSource) (push_data : List ℤ)
    (index? : Option ℕ) : Except PyErr (PriceSource × List ℕ) :=
  let index : ℤ := match index? with
    | none => st.last_index + 1
    | some i => (i : ℤ)
  if index < 0 then Except.error PyErr.indexError
  else if index ≤ st.last_index then Except.error PyErr.indexError
  else if (capacity : ℤ) ≤ index + push_data.length then Except.error PyErr.frameFull
  else
    match source_interpolate_and_put st index.toNat push_data with
    | Except.error e2 => Except.error e2
    | Except.ok st2 =>
      let end_ := index.toNat + push_data.length
      Except.ok ({ st2 with last_index := (end_ : ℤ) - 1 }, [end_, end_])

/-- Claim C7: a push that leaves a gap (index - 1 beyond the current
length, which is 0 for an empty source) on an empty source constructed
with initial = None fails with the Uninitialized error; the error is
raised before any write, index advance or event trigger, so the state is
untouched. -/
theorem c7_uninitialized_push (capacity : ℕ) (data0 : ℕ → Option ℤ)
    (push_data : List ℤ) (index : ℕ)
    (hgap : (index : ℤ) - 1 > 0)
    (hcap : (index : ℤ) + push_data.length < capacity) :
    source_push capacity ⟨none, -1, data0⟩ push_data (some index)
      = Except.error PyErr.uninitialized := by
  have h1 : ¬ ((index : ℤ) < 0) := by omega
  have h2 : ¬ ((index : ℤ) ≤ -1) := by omega
  have h3 : ¬ ((capacity : ℤ) ≤ (index : ℤ) + push_data.length) := by omega
  have h4 : (index : ℤ) - 1 > -1 := by omega
  simp [source_push, source_interpolate_and_put, h1, h2, h3, h4]

/-- Claim C7 witness: capacity 24 (hourly legacy frame), empty
uninitialized source, push of one row at index 3. -/
theorem c7_uninitialized_push_witness :
    ((3 : ℤ) - 1 > 0) ∧ ((3 : ℤ) + [(5 : ℤ)].length < 24)
      ∧ source_push 24 ⟨none, -1, fun _ => none⟩ [5] (some 3)
        = Except.error PyErr.uninitialized :=
  ⟨by decide, by decide,
    c7_uninitialized_push 24 (fun _ => none) [5] 3 (by decide) (by decide)⟩

/-- Scenario S1 initial state: Source(Price, t0, HOUR, initial = 1), empty
(capacity of the legacy hourly frame: 86400 / 3600 = 24 rows). -/
def s1_source0 : PriceSource := ⟨some 1, -1, fun _ => none⟩

/-- Scenario S1 state after push([2,4,6,8,10,12,14], index=4). The error
fallback is never taken: the push succeeds, as proved below. -/
def s1_state1 : PriceSource :=
  match source_push 24 s1_source0 [2, 4, 6, 8, 10, 12, 14] (some 4) with
  | Except.ok p => p.1
  | Except.error _ => s1_source0

/-- Scenario S1 state after the subsequent push([16,18,20,22]) at the
default index. -/
def s1_state2 : PriceSource :=
  match source_push 24 s1_state1 [16, 18, 20, 22] none with
  | Except.ok p => p.1
  | Except.error _ => s1_state1

/-- Claim C2 counterexample: in scenario S1 the first push succeeds and
slot 3 reads 1 (the interpolation writes int(1 + 4/5) = 1 there, matching
the formula 1 + floor(k * (2 - 1) / 5) at k = 4), not the 2 the claim
asserts via its value list [1,1,1,2]. -/
theorem c2_interpolation_counterexample :
    (source_push 24 s1_source0 [2, 4, 6, 8, 10, 12, 14] (some 4)).toOption.isSome = true
      ∧ s1_state1.data 3 = some 1
      ∧ ¬ s1_state1.data 3 = some 2 := by
  refine ⟨by decide, by decide, by decide⟩

/-- Claim C2 (amended): in scenario S1, slots 0..3 hold the truncated ramp
[1,1,1,1] (slot k holds 1 + floor((k + 1) * (2 - 1) / 5), the code writing
int(delta * (index + 1) + left) for index = k), slot 4 holds 2, slots 5..10
hold 4,6,8,10,12,14 in order (slot 10 = 14), and the subsequent
push([16,18,20,22]) fills slots 11..14. -/
theorem c2_source_scenario :
    (source_push 24 s1_source0 [2, 4, 6, 8, 10, 12, 14] (some 4)).toOption.isSome = true
      ∧ s1_state1.data 0 = some 1 ∧ s1_state1.data 1 = some 1
      ∧ s1_state1.data 2 = some 1 ∧ s1_state1.data 3 = some 1
      ∧ s1_state1.data 4 = some 2 ∧ s1_state1.data 5 = some 4
      ∧ s1_state1.data 6 = some 6 ∧ s1_state1.data 7 = some 8
      ∧ s1_state1.data 8 = some 10 ∧ s1_state1.data 9 = some 12
      ∧ s1_state1.data 10 = some 14
      ∧ s1_state1.last_index = 10
      ∧ (source_push 24 s1_state1 [16, 18, 20, 22] none).toOption.isSome = true
      ∧ s1_state2.data 11 = some 16 ∧ s1_state2.data 12 = some 18
      ∧ s1_state2.data 13 = some 20 ∧ s1_state2.data 14 = some 22
      ∧ s1_state2.last_index = 14 := by
  decide

/-! ## Link and unlink (package/sources.py)

Source.link unconditionally calls unlink() first; unlink dereferences
self._linked_to, which is None on a source that was never linked
(package/sources.py line 47), so the very first link raises AttributeError
before anything is validated or subscribed. Even on a previously linked
source, the forced first refresh at line 151 passes digest.timestamp - a
datetime - where _on_linked_refresh expects the digest itself; the handler
then evaluates digest.timestamp on that datetime, obtaining the builtin
bound method datetime.timestamp, and index_for subtracts a datetime from
that method, raising TypeError before any push. Python exceptions do not
roll back earlier mutations, so link is modelled as returning the error
alongside the mutated state and a flag telling whether the back-fill push
ran. -/

/-- Dynamic Python values flowing through _on_linked_refresh: a digest, a
datetime, or the builtin bound method datetime.timestamp obtained when the
timestamp attribute is read on a datetime. -/
inductive PyVal where
  | digestObj (timestamp : ℤ) (len : ℕ)
  | datetimeObj (seconds : ℤ)
  | builtinMethod
deriving DecidableEq

/-- Reading the timestamp attribute: a digest exposes its origin datetime;
on a datetime the name resolves to the builtin method object. -/
def pyattr_timestamp : PyVal → Except PyErr PyVal
  | .digestObj t _ => Except.ok (.datetimeObj t)
  | .datetimeObj _ => Except.ok .builtinMethod
  | .builtinMethod => Except.error PyErr.attributeError

/-- Timelapse.index_for applied to a dynamic value: subtraction of the own
origin is only defined between datetimes; anything else raises TypeError. -/
def py_index_for (self_timestamp self_interval : ℤ) : PyVal → Except PyErr ℤ
  | .datetimeObj s => Except.ok (Int.fdiv (s - self_timestamp) self_interval)
  | _ => Except.error PyErr.typeError

/-- Slicing digest[start:end]: only an actual digest is subscriptable. -/
def py_subscript : PyVal → ℕ → ℕ → Except PyErr Unit
  | .digestObj _ _, _, _ => Except.ok ()
  | _, _, _ => Except.error PyErr.typeError

/-- Embedding of Source._on_linked_refresh (package/sources.py lines
162-174): compute base_index = index_for(digest.timestamp), slice the
digest and push. The push itself is abstracted: an ok result means the
back-fill push ran. -/
def source_on_linked_refresh (self_timestamp self_interval : ℤ)
    (digest_arg : PyVal) (start_ end_ : ℕ) : Except PyErr Unit := do
  let stamp ← pyattr_timestamp digest_arg
  let _base ← py_index_for self_timestamp self_interval stamp
  let _rows ← py_subscript digest_arg start_ end_
  pure ()

/-- Link state of a source: the held digest-event handle (None while never
linked) and whether _on_linked_refresh is registered on some digest event. -/
structure LinkState where
  linked_to : Option Unit
  registered : Bool
deriving DecidableEq

/-- Embedding of Source.unlink (package/sources.py lines 153-160):
self._linked_to.unregister(...) dereferences None on a never-linked source,
raising AttributeError with nothing mutated; otherwise it unregisters and
clears the handle. -/
def source_unlink (st : LinkState) : Option PyErr × LinkState :=
  match st.linked_to with
  | none => (some PyErr.attributeError, st)
  | some _ => (none, ⟨none, false⟩)

/-- Embedding of Source.link (package/sources.py lines 134-151): unlink
first, validate the digest origin and interval, subscribe, then force the
first refresh passing digest.timestamp as the digest argument. The third
component records whether the back-fill push ran. -/
def source_link (st : LinkState) (self_timestamp self_interval : ℤ)
    (digest_timestamp digest_interval : ℤ) (digest_len : ℕ) :
    Option PyErr × LinkState × Bool :=
  match source_unlink st with
  | (some e2, st2) => (some e2, st2, false)
  | (none, st2) =>
    if digest_timestamp < self_timestamp then (some PyErr.valueError, st2, false)
    else if digest_interval < self_interval then (some PyErr.valueError, st2, false)
    else
      match source_on_linked_refresh self_timestamp self_interval
          (PyVal.datetimeObj digest_timestamp) 0 digest_len with
      | Except.error e2 => (some e2, ⟨some (), true⟩, false)
      | Except.ok _ => (none, ⟨some (), true⟩, true)

/-- Claim C10: on a fresh source (never linked, handle None), unlink is not
a no-op: it raises AttributeError and mutates nothing; consequently the
very first link, which unconditionally calls unlink before validating,
raises the same AttributeError before subscribing (the state keeps
registered = false and no back-fill runs). -/
theorem c10_unlink_link_fresh (self_timestamp self_interval
    digest_timestamp digest_interval : ℤ) (digest_len : ℕ) :
    source_unlink ⟨none, false⟩ = (some PyErr.attributeError, ⟨none, false⟩)
      ∧ source_link ⟨none, false⟩ self_timestamp self_interval
          digest_timestamp digest_interval digest_len
        = (some PyErr.attributeError, ⟨none, false⟩, false) :=
  ⟨rfl, rfl⟩

/-- Claim C5 evaluation: link never returns successfully and the back-fill
push of the handler never runs, whatever the state and digest: a fresh
source dies in unlink, and a previously linked one either fails validation
or raises TypeError inside the forced refresh because digest.timestamp was
passed where the digest was expected. -/
theorem c5_link_never_backfills (st : LinkState) (self_timestamp self_interval
    digest_timestamp digest_interval : ℤ) (digest_len : ℕ) :
    (source_link st self_timestamp self_interval
        digest_timestamp digest_interval digest_len).1 ≠ none
      ∧ (source_link st self_timestamp self_interval
          digest_timestamp digest_interval digest_len).2.2 = false := by
  rcases st with ⟨lt, reg⟩
  cases lt with
  | none => simp [source_link, source_unlink]
  | some u =>
    simp only [source_link, source_unlink]
    by_cases h1 : digest_timestamp < self_timestamp
    · simp [h1]
    · by_cases h2 : digest_interval < self_interval
      · simp [h1, h2]
      · have hforced : source_on_linked_refresh self_timestamp self_interval
            (PyVal.datetimeObj digest_timestamp) 0 digest_len
              = Except.error PyErr.typeError := rfl
        simp [h1, h2, hforced]

/-! ## Indicator disposal (mistra/core/indicators/__init__.py)

Indicator.dispose sets _disposed, clears _data, assigns
_broadcasters_read = None and then immediately iterates
self._broadcasters_read.keys(); calling .keys() on None raises
AttributeError, so the unregistration loop and the cascade over the
subscribers of on_refresh_indicators are never reached. Mutations made
before the raise persist. -/

/-- Observable state of the disposal scenario: indicator A with subscribers
B and C registered on its on_refresh_indicators event. a_registered tells
whether A is still registered on its upstream broadcasters. -/
structure DisposeScenario where
  a_disposed : Bool
  a_has_data : Bool
  a_registered : Bool
  b_disposed : Bool
  c_disposed : Bool
deriving DecidableEq

/-- Embedding of Indicator.dispose (mistra/core/indicators/__init__.py
lines 96-109): a second call is a guarded no-op; a first call sets
_disposed, drops _data, then raises AttributeError at
self._broadcasters_read.keys() (the attribute was just assigned None),
reaching neither the unregistration loop nor the dispose cascade. -/
def indicator_dispose (st : DisposeScenario) : Option PyErr × DisposeScenario :=
  if st.a_disposed then (none, st)
  else
    (some PyErr.attributeError,
      { st with a_disposed := true, a_has_data := false })

/-- Embedding of the guard of Indicator.__getitem__ (lines 73-91): reads on
a disposed indicator raise the Disposed error. -/
def indicator_getitem_guard (st : DisposeScenario) : Option PyErr :=
  if st.a_disposed then some PyErr.disposed else none

/-- Claim C6 evaluation at the failing input: disposing A (subscribed
upstream, with live subscribers B and C) raises AttributeError after
setting A.disposed and dropping its data; B and C are not disposed and A
stays registered upstream; subsequent reads on A do raise Disposed, and a
second dispose call is a successful no-op. -/
theorem c6_dispose_cascade_bug :
    indicator_dispose ⟨false, true, true, false, false⟩
        = (some PyErr.attributeError, ⟨true, false, true, false, false⟩)
      ∧ indicator_getitem_guard ⟨true, false, true, false, false⟩ = some PyErr.disposed
      ∧ indicator_dispose ⟨true, false, true, false, false⟩
        = (none, ⟨true, false, true, false, false⟩) :=
  ⟨rfl, rfl, rfl⟩

/-! ## GrowingArray fill-on-untouched (spec section 4.1) -/

/-- Modelled from the spec: mistra.core.growing_arrays.GrowingArray is
absent from src - only its callers appear (mistra/core/timelapses.py line
24 constructs it as GrowingArray(dtype, fill_value, chunk_size, width), and
mistra/core/indicators/__init__.py line 51 likewise); the file
growing_arrays.py present in src is an earlier incompatible stub (no
fill_value parameter and a TODO body). Per spec section 4.1 the array owns
chunked storage of chunk_size rows initialized to fill_value, a
logical_length extended only by writes, and out-of-range reads within
allocated chunks return fill_value. A row is one value of the element
type. -/
structure GrowingArray (α : Type) where
  fill_value : α
  chunk_size : ℕ
  chunks : ℕ
  logical_length : ℕ
  store : ℕ → α

/-- Modelled from the spec: set(index, row) allocates enough chunks to
cover index + 1, writes the row and raises logical_length to
max(logical_length, index + 1). -/
def GrowingArray.set {α : Type} (ga : GrowingArray α) (index : ℕ) (row : α) :
    GrowingArray α :=
  { ga with
    chunks := max ga.chunks ((index + 1 + ga.chunk_size - 1) / ga.chunk_size),
    logical_length := max ga.logical_length (index + 1),
    store := Function.update ga.store index row }

/-- Modelled from the spec: set_slice(start, stop, rows) is a no-op on an
empty range and otherwise allocates to cover stop, writes rows[i - start]
into every slot i of [start, stop) and raises logical_length to
max(logical_length, stop). -/
def GrowingArray.set_slice {α : Type} (ga : GrowingArray α) (start_ stop : ℕ)
    (rows : ℕ → α) : GrowingArray α :=
  if start_ = stop then ga
  else
    { ga with
      chunks := max ga.chunks ((stop + ga.chunk_size - 1) / ga.chunk_size),
      logical_length := max ga.logical_length stop,
      store := fun i => if start_ ≤ i ∧ i < stop then rows (i - start_) else ga.store i }

/-- Modelled from the spec: get(index) reads a row and mutates nothing; the
unchanged array is returned alongside the value to make that explicit. -/
def GrowingArray.get {α : Type} (ga : GrowingArray α) (index : ℕ) :
    α × GrowingArray α :=
  (ga.store index, ga)

/-- The growing arrays reachable from construction by write operations:
construction with a fill value and a chunk size (storage all fill_value,
nothing allocated, length 0), single-row writes, and slice writes over a
valid range. -/
inductive GAReachable {α : Type} : GrowingArray α → Prop where
  | init (fill : α) (chunk_size : ℕ) : GAReachable ⟨fill, chunk_size, 0, 0, fun _ => fill⟩
  | set {ga : GrowingArray α} (h : GAReachable ga) (index : ℕ) (row : α) :
      GAReachable (ga.set index row)
  | set_slice {ga : GrowingArray α} (h : GAReachable ga) (start_ stop : ℕ)
      (rows : ℕ → α) (hss : start_ ≤ stop) : GAReachable (ga.set_slice start_ stop rows)

/-- Invariant: every slot at or beyond logical_length still holds
fill_value, because each write raises logical_length past every slot it
touches. -/
theorem GAReachable.fill_inv {α : Type} {ga : GrowingArray α}
    (h : GAReachable ga) :
    ∀ i, ga.logical_length ≤ i → ga.store i = ga.fill_value := by
  induction h with
  | init fill chunk_size => intro i _; rfl
  | set h index row ih =>
    intro i hi
    simp only [GrowingArray.set] at hi ⊢
    rw [Function.update_apply, if_neg (by omega : ¬ i = index)]
    exact ih i (by omega)
  | set_slice h start_ stop rows hss ih =>
    intro i hi
    simp only [GrowingArray.set_slice] at hi ⊢
    by_cases heq : start_ = stop
    · rw [if_pos heq] at hi ⊢
      exact ih i hi
    · rw [if_neg heq] at hi ⊢
      simp only at hi ⊢
      rw [if_neg (by omega : ¬ (start_ ≤ i ∧ i < stop))]
      exact ih i (by omega)

/-- Claim C8: on any reachable growing array, reading a slot at or beyond
logical_length (in particular one inside the allocated chunks) returns
fill_value rather than failing, and the read leaves logical_length - and
the whole array - unchanged. -/
theorem c8_growing_array_fill_read {α : Type} {ga : GrowingArray α}
    (h : GAReachable ga) (i : ℕ) (hll : ga.logical_length ≤ i)
    (halloc : i < ga.chunks * ga.chunk_size) :
    (ga.get i).1 = ga.fill_value
      ∧ (ga.get i).2.logical_length = ga.logical_length
      ∧ (ga.get i).2 = ga :=
  ⟨h.fill_inv i hll, rfl, rfl⟩

/-- Claim C8 witness: a fresh integer array with fill 0 and chunk size 60
after a single write at slot 0 has logical length 1 and one allocated
chunk; reading slot 1 returns the fill value and changes nothing. -/
theorem c8_growing_array_fill_read_witness :
    GAReachable (GrowingArray.set ⟨(0 : ℤ), 60, 0, 0, fun _ => (0 : ℤ)⟩ 0 5)
      ∧ (GrowingArray.set ⟨(0 : ℤ), 60, 0, 0, fun _ => (0 : ℤ)⟩ 0 5).logical_length ≤ 1
      ∧ 1 < (GrowingArray.set ⟨(0 : ℤ), 60, 0, 0, fun _ => (0 : ℤ)⟩ 0 5).chunks
          * (GrowingArray.set ⟨(0 : ℤ), 60, 0, 0, fun _ => (0 : ℤ)⟩ 0 5).chunk_size
      ∧ (((GrowingArray.set ⟨(0 : ℤ), 60, 0, 0, fun _ => (0 : ℤ)⟩ 0 5).get 1).1
          = (GrowingArray.set ⟨(0 : ℤ), 60, 0, 0, fun _ => (0 : ℤ)⟩ 0 5).fill_value
        ∧ ((GrowingArray.set ⟨(0 : ℤ), 60, 0, 0, fun _ => (0 : ℤ)⟩ 0 5).get 1).2.logical_length
          = (GrowingArray.set ⟨(0 : ℤ), 60, 0, 0, fun _ => (0 : ℤ)⟩ 0 5).logical_length
        ∧ ((GrowingArray.set ⟨(0 : ℤ), 60, 0, 0, fun _ => (0 : ℤ)⟩ 0 5).get 1).2
          = GrowingArray.set ⟨(0 : ℤ), 60, 0, 0, fun _ => (0 : ℤ)⟩ 0 5) :=
  ⟨GAReachable.set (GAReachable.init 0 60) 0 5, by decide, by decide,
    c8_growing_array_fill_read (GAReachable.set (GAReachable.init 0 60) 0 5) 1
      (by decide) (by decide)⟩
